import Mathlib

/-!
Verification of the mail-merge dispatch core of `app.py`.

The embedding models, faithfully to the source:
  - `extract_email` and the regex `[\w\.-]+@[\w\.-]+\.\w+` (Python `re.search`
    semantics: leftmost start, greedy quantifiers with backtracking; `\w` is
    modelled for ASCII input as letters, digits and underscore);
  - `convert_bold` with its four ordered substitutions and the HTML wrapper;
  - `get_or_create_label` over a pure label store (the successful API path);
  - `safe_format_template` over an embedding of `str.format` restricted to
    named placeholders (format specifications, conversions, attribute and
    index access are outside the model; theorems restrict to templates whose
    placeholders are plain names);
  - the per-row dispatch loop of the send-button handler, with the transport
    modelled as an oracle of per-call results and the jittered sleep modelled
    as a per-row rational duration recorded in a trace.
-/

namespace MailMerge

/-! ### Character classes of the email regex -/
/-- Python `\w` for ASCII input: letters, digits, underscore. -/
def isWordChar (c : Char) : Bool := c.isAlpha || c.isDigit || c = '_'

/-- The character class `[\w\.-]` of `EMAIL_REGEX`. -/
def isAddrChar (c : Char) : Bool := isWordChar c || c = '.' || c = '-'

/-! ### The matcher for `[\w\.-]+@[\w\.-]+\.\w+`

`re.search` tries start positions left to right; at a fixed start the greedy
`[\w\.-]+` before `@` must be the maximal run (since `@` is outside the
class, backtracking cannot help), and after `@` the engine backtracks the
greedy run to the rightmost `.` that is followed by at least one `\w`. -/
/-- Split an addr-char run at the rightmost `.` that is followed by a word
character; returns the part before the dot and the maximal word-char run
after it. -/
def bestSplit : List Char → Option (List Char × List Char)
  | [] => none
  | c :: cs =>
    match bestSplit cs with
    | some (dl, w) => some (c :: dl, w)
    | none =>
      if c = '.' then
        let w := cs.takeWhile isWordChar
        if w.isEmpty then none else some ([], w)
      else none

/-- Match `[\w\.-]+\.\w+` at the start of `l`, returning the matched prefix. -/
def matchDomain (l : List Char) : Option (List Char) :=
  match bestSplit (l.takeWhile isAddrChar) with
  | some (dl, w) => if dl.isEmpty then none else some (dl ++ '.' :: w)
  | none => none

/-- Match the whole regex at the start of `l`, returning the matched prefix. -/
def matchAt (l : List Char) : Option (List Char) :=
  let r1 := l.takeWhile isAddrChar
  if r1.isEmpty then none
  else
    match l.dropWhile isAddrChar with
    | '@' :: rest => (matchDomain rest).map (fun d => r1 ++ '@' :: d)
    | _ => none

/-- Search as `re.search` does: try every start position left to right. -/
def searchEmail : List Char → Option (List Char)
  | [] => none
  | c :: cs =>
    match matchAt (c :: cs) with
    | some m => some m
    | none => searchEmail cs

/-- Function `extract_email` from `app.py`: `None`/empty input gives `None`, otherwise
the first regex match if any. -/
def extract_email : Option String → Option String
  | none => none
  | some s => if s = "" then none else (searchEmail s.toList).map (fun m => ⟨m⟩)

/-! ### convert_bold

The body post-processor of `app.py`: two `re.sub` passes (bold spans, then
markdown links with an `http(s)://` scheme), then `str.replace` of newlines
with `<br>` and of double spaces with `&nbsp;&nbsp;`, then the fixed HTML
wrapper of the f-string. Empty or `None` input returns `""` before any of
this. The `.` of the regexes does not match `\n` (no DOTALL flag), and
`re.sub` scans start positions left to right with non-greedy captures. -/
/-- Python `\s` on ASCII input. -/
def isPySpace (c : Char) : Bool :=
  c = ' ' || c = '\t' || c = '\n' || c = '\r' || c = '\x0b' || c = '\x0c'

/-- The class `[^\s)]` of the link regex url part. -/
def isUrlChar (c : Char) : Bool := !(isPySpace c) && c != ')'

/-- Scan for the nearest closing `**` (non-greedy `(.*?)\\*\\*`); the capture
cannot cross a newline. Returns the capture and the remainder. -/
def findClose : List Char → Option (List Char × List Char)
  | '*' :: '*' :: rest => some ([], rest)
  | '\n' :: _ => none
  | c :: rest => (findClose rest).map (fun p => (c :: p.1, p.2))
  | [] => none

/-- One fuelled pass of `re.sub(r"\\*\\*(.*?)\\*\\*", r"<b>\\1</b>", text)`; the
fuel only serves structural recursion and is never exhausted when it starts
at the length of the input, since every step consumes one character. -/
def boldGo : Nat → List Char → List Char
  | _, [] => []
  | 0, l => l
  | fuel + 1, '*' :: '*' :: rest =>
    match findClose rest with
    | some p => ("<b>".toList ++ p.1 ++ "</b>".toList) ++ boldGo fuel p.2
    | none => '*' :: boldGo fuel ('*' :: rest)
  | fuel + 1, c :: rest => c :: boldGo fuel rest

/-- Substitution pass of the bold `re.sub`. -/
def boldAux (l : List Char) : List Char := boldGo l.length l

/-- Match `(https?://[^\s)]+)\)` at the start of `l`: the scheme, then a
nonempty greedy run of url characters, then the closing parenthesis.
Returns the url (scheme included) and the remainder after `)`. -/
def urlMatch (l : List Char) : Option (List Char × List Char) :=
  match l with
  | 'h' :: 't' :: 't' :: 'p' :: rest =>
    match rest with
    | 's' :: ':' :: '/' :: '/' :: r => urlTail ("https://".toList) r
    | ':' :: '/' :: '/' :: r => urlTail ("http://".toList) r
    | _ => none
  | _ => none
where
  urlTail (scheme r : List Char) : Option (List Char × List Char) :=
    let run := r.takeWhile isUrlChar
    if run.isEmpty then none
    else
      match r.dropWhile isUrlChar with
      | ')' :: rest' => some (scheme ++ run, rest')
      | _ => none

/-- Scan for the nearest `](url)` closing a markdown link (non-greedy label,
which cannot cross a newline); on a url mismatch the candidate `](` becomes
part of the label and the scan continues. Returns label, url, remainder. -/
def linkFind : Nat → List Char → List Char → Option (List Char × List Char × List Char)
  | _, _, [] => none
  | 0, _, _ => none
  | fuel + 1, cap, ']' :: '(' :: r =>
    match urlMatch r with
    | some (url, rest') => some (cap, url, rest')
    | none => linkFind fuel (cap ++ [']']) ('(' :: r)
  | _, _, '\n' :: _ => none
  | fuel + 1, cap, c :: r => linkFind fuel (cap ++ [c]) r

/-- Search for the link pattern starting right after an opening `[`. -/
def findLink (cap l : List Char) : Option (List Char × List Char × List Char) :=
  linkFind l.length cap l

/-- The opening part of the replacement
`<a href="\\2" style="color:#1a73e8; text-decoration:underline;" target="_blank">\\1</a>`. -/
def linkOpen (url : List Char) : List Char :=
  "<a href=\"".toList ++ url ++
    "\" style=\"color:#1a73e8; text-decoration:underline;\" target=\"_blank\">".toList

/-- One fuelled pass of the link `re.sub`. -/
def linkGo : Nat → List Char → List Char
  | _, [] => []
  | 0, l => l
  | fuel + 1, '[' :: rest =>
    match findLink [] rest with
    | some (lab, url, rest') => (linkOpen url ++ lab ++ "</a>".toList) ++ linkGo fuel rest'
    | none => '[' :: linkGo fuel rest
  | fuel + 1, c :: rest => c :: linkGo fuel rest

/-- Substitution pass of the link `re.sub`. -/
def linkAux (l : List Char) : List Char := linkGo l.length l

/-- Model of `str.replace("\n", "<br>")`. -/
def brSub : List Char → List Char
  | [] => []
  | c :: rest => (if c = '\n' then "<br>".toList else [c]) ++ brSub rest

/-- Model of `str.replace("  ", "&nbsp;&nbsp;")`: left to right, non-overlapping. -/
def nbspSub : List Char → List Char
  | ' ' :: ' ' :: rest => "&nbsp;&nbsp;".toList ++ nbspSub rest
  | c :: rest => c :: nbspSub rest
  | [] => []

/-- The fixed HTML document wrapper of the f-string in `convert_bold`. -/
def wrapHtml (s : String) : String :=
  "\n    <html>\n        <body style=\"font-family: Verdana, sans-serif; font-size: 14px; line-height: 1.6;\">\n            "
    ++ s ++ "\n        </body>\n    </html>\n    "

/-- The four ordered textual substitutions of `convert_bold`. -/
def markupSubs (s : String) : String :=
  ⟨nbspSub (brSub (linkAux (boldAux s.toList)))⟩

/-- Function `convert_bold` from `app.py`: falsy input gives `""`, otherwise the four
substitutions followed by the HTML wrapper. -/
def convert_bold : Option String → String
  | none => ""
  | some s => if s = "" then "" else wrapHtml (markupSubs s)

/-! ### get_or_create_label

The label store is the list returned by the `labels().list` call, each entry
carrying `id` and `name`; `labels().create` appends a new label whose id is
assigned by the service. The model covers the successful transport path of
`get_or_create_label` (its `except` branch only degrades to `None` on a
transport error, which the pure store has no way to produce); the id of a
created label is produced by a supplied generator so that nothing is assumed
about the id format of the service. -/
structure GLabel where
  id : String
  name : String
deriving DecidableEq, Repr

/-- Python `str.lower` for ASCII input. -/
def pyLower (s : String) : String := ⟨s.toList.map Char.toLower⟩

/-- Function `get_or_create_label` from `app.py` over a pure store: return the id of
the first label whose name matches case-insensitively, otherwise create a
label with the requested name (id given by `gen` applied to the store) and
return its id. Returns the id and the store after the call. -/
def get_or_create_label (gen : List GLabel → String) (labels : List GLabel)
    (label_name : String) : String × List GLabel :=
  match labels.find? (fun l => pyLower l.name = pyLower label_name) with
  | some l => (l.id, labels)
  | none =>
    let created : GLabel := ⟨gen labels, label_name⟩
    (created.id, labels ++ [created])

/-! ### safe_format_template

`str.format` is embedded for templates made of literal text, `{{`/`}}`
escapes and named `{field}` placeholders, with lookup in a keyword mapping
and an error on a missing key or on unbalanced braces; format
specifications, conversions, attribute access and positional indices are not
modelled, and theorems quantify only over templates whose placeholders are
plain names. Rows are association lists of string fields (`pd.Series`
values are stringified by `format`, which for the string values of the
model is the identity). The parser is a character-at-a-time state machine
written as a left fold so that it both evaluates and supports induction
over appended input. -/
/-- A parsed piece of a format string. -/
inductive FmtChunk
  | lit (c : Char)
  | field (nm : String)
deriving DecidableEq, Repr

/-- Parser state: scanning literal text, right after `{`, right after `}`,
or inside a field with the name accumulated in reverse. -/
inductive FmtMode
  | norm
  | afterOpen
  | afterClose
  | inField (nmRev : List Char)
deriving DecidableEq, Repr

/-- One parser transition. `none` is the parse error state (a lone `}` or a
`{` inside a field name, as raised by `str.format`). -/
def fmtStep (st : Option (List FmtChunk × FmtMode)) (c : Char) :
    Option (List FmtChunk × FmtMode) :=
  match st with
  | none => none
  | some (ch, .norm) =>
    if c = '{' then some (ch, .afterOpen)
    else if c = '}' then some (ch, .afterClose)
    else some (ch ++ [.lit c], .norm)
  | some (ch, .afterOpen) =>
    if c = '{' then some (ch ++ [.lit '{'], .norm)
    else if c = '}' then some (ch ++ [.field ""], .norm)
    else some (ch, .inField [c])
  | some (ch, .afterClose) =>
    if c = '}' then some (ch ++ [.lit '}'], .norm)
    else none
  | some (ch, .inField nm) =>
    if c = '}' then some (ch ++ [.field ⟨nm.reverse⟩], .norm)
    else if c = '{' then none
    else some (ch, .inField (c :: nm))

/-- Parse a format string into chunks; errors exactly on unbalanced braces
(a lone `}`, an unterminated `{…`, a `{` inside a field name), the cases in
which `str.format` raises for every argument mapping. -/
def parseFmt (l : List Char) : Except Unit (List FmtChunk) :=
  match l.foldl fmtStep (some ([], .norm)) with
  | some (ch, .norm) => .ok ch
  | _ => .error ()

/-- Substitute chunks through a lookup, failing on a missing key exactly as
`str.format` raises `KeyError`. -/
def renderChunks (look : String → Option String) : List FmtChunk → Except Unit (List Char)
  | [] => .ok []
  | .lit c :: rest => (renderChunks look rest).map (fun t => c :: t)
  | .field nm :: rest =>
    match look nm with
    | none => .error ()
    | some v => (renderChunks look rest).map (fun t => v.toList ++ t)

/-- Model of `template.format(**mapping)` on the modelled fragment. -/
def pyFormat (tpl : String) (look : String → Option String) : Except Unit String :=
  (parseFmt tpl.toList).bind (fun ch => (renderChunks look ch).map (fun t => ⟨t⟩))

/-- One transition of `re.findall(r"\{(.*?)\}", template)`: outside a
capture, a `{` opens one; inside, `}` emits the capture, a newline abandons
the start (the non-greedy dot does not cross newlines), anything else is
captured. -/
def findallStep (st : List String × Option (List Char)) (c : Char) :
    List String × Option (List Char) :=
  match st.2 with
  | none => if c = '{' then (st.1, some []) else (st.1, none)
  | some cap =>
    if c = '}' then (st.1 ++ [⟨cap.reverse⟩], none)
    else if c = '\n' then (st.1, none)
    else (st.1, some (c :: cap))

/-- Model of `re.findall` for the pattern of braced captures, returning the captured groups. -/
def pyFindall (tpl : String) : List String :=
  (tpl.toList.foldl findallStep ([], none)).1

/-- A row of the uploaded table: field name to (stringified) value. -/
abbrev Row := List (String × String)

/-- Model of `row.get(k)` of a `pd.Series`: the first binding of the key, if any. -/
def rowGet : Row → String → Option String
  | [], _ => none
  | (k, v) :: rest, key => if k = key then some v else rowGet rest key

/-- Function `safe_format_template` from `app.py`: try `format` with the full row;
on failure rebuild a context defaulting every `findall` key that is absent
from the row to `""` and retry; on a second failure return the template. -/
def safe_format_template (tpl : String) (row : Row) : String :=
  match pyFormat tpl (rowGet row) with
  | .ok s => s
  | .error _ =>
    let ctx : Row := (pyFindall tpl).map (fun k => (k, (rowGet row k).getD ""))
    match pyFormat tpl (rowGet ctx) with
    | .ok s => s
    | .error _ => tpl

/-! ### The dispatch loop

The body of the send-button handler, lines 247 to 301 of `app.py`. The
transport is an oracle of per-call results indexed by row position; the
`random.uniform(delay * 0.9, delay * 1.1)` draw is a per-row rational
supplied from outside (its range is a hypothesis where a theorem needs it),
and the slept durations are recorded in a trace. Per row, in source order:
extract the recipient (skip on failure, consuming nothing), render subject
and body (body through `convert_bold`), submit via send or draft-create,
sleep, fetch the sent message metadata for its `Message-ID` header, apply
the label for new emails, then write `ThreadId`/`RfcMessageId` back into
the row and count the success; any transport exception inside the `try`
records a failure for the row and the loop continues. -/
/-- The fields of the transport response used by the loop: `sent_msg` is a
JSON object read with `.get("id", ...)`/`.get("threadId", "")`, either key
possibly absent (the draft branch reads `.get("message", {})`, so even an
empty object can reach the loop body). -/
structure SentMsg where
  id : Option String
  threadId : Option String
deriving DecidableEq, Repr

/-- A response header, as returned by `getMessageHeaders`. -/
structure MailHeader where
  name : String
  value : String
deriving DecidableEq, Repr

/-- The message handed to the transport: the loop sets only `To`, `Subject`
and the HTML body on the MIME message, and submits `{"raw": ...}` with no
thread field. -/
structure EmailMessage where
  toAddr : String
  subject : String
  body : String
deriving DecidableEq, Repr

/-- Per-row transport oracle: the result of each call the loop can make.
An `error` models the call raising. -/
structure StepOracle where
  send : EmailMessage → Except String SentMsg
  draft : EmailMessage → Except String SentMsg
  getMsg : String → Except String (List MailHeader)
  modify : String → String → Except String Unit

/-- The three radio-button modes. -/
inductive Mode
  | newEmail
  | followUpReply
  | saveDraft
deriving DecidableEq, Repr

/-- The per-row outcome: skip (with the raw `Email` cell), failure (address
with error text, appended to `errors`), or success (with the recorded
correlation ids). -/
inductive Outcome
  | skipped (raw : Option String)
  | failed (addr err : String)
  | sent (tid mid : String)
deriving DecidableEq, Repr

/-- Result of one loop iteration: the outcome, the row after the iteration,
whether the jittered sleep ran, and the message submitted to the transport
if one was. -/
structure RowStep where
  outcome : Outcome
  row : Row
  slept : Bool
  submitted : Option EmailMessage

/-- Python `str.strip()` on ASCII input: drop leading and trailing
whitespace. -/
def pyStrip (s : String) : String :=
  ⟨((s.toList.dropWhile isPySpace).reverse.dropWhile isPySpace).reverse⟩

/-- Model of `extract_email(str(row.get("Email", "")).strip())`. -/
def toAddrOf (row : Row) : Option String :=
  extract_email (some (pyStrip ((rowGet row "Email").getD "")))

/-- The MIME message built for a row: formatted subject, body through
`convert_bold`. -/
def buildMessage (subjT bodyT : String) (row : Row) (to_addr : String) : EmailMessage :=
  { toAddr := to_addr
    subject := safe_format_template subjT row
    body := convert_bold (some (safe_format_template bodyT row)) }

/-- Which transport call the mode submits through: draft-create for
`SaveDraft`, send otherwise. -/
def transportCall (mode : Mode) (o : StepOracle) : EmailMessage → Except String SentMsg :=
  match mode with
  | .saveDraft => o.draft
  | _ => o.send

/-- Model of `df.loc[idx, k] = v`: update the first binding of an existing column
(the loop runs after both columns are ensured to exist). -/
def setField : Row → String → String → Row
  | [], k, v => [(k, v)]
  | (k', v') :: rest, k, v =>
    if k' = k then (k, v) :: rest else (k', v') :: setField rest k v

/-- Lines 253 to 256: add a `ThreadId`/`RfcMessageId` column if absent (the
uploaded table is columnwise uniform, so the per-row check coincides with
the `df.columns` check; the empty cells of a fresh column are modelled as ""). -/
def ensureField (row : Row) (k : String) : Row :=
  if (rowGet row k).isSome then row else row ++ [(k, "")]

def ensureCols (row : Row) : Row :=
  ensureField (ensureField row "ThreadId") "RfcMessageId"

/-- One iteration of the `for idx, row in df.iterrows()` body. -/
def processRow (mode : Mode) (labelId : Option String) (subjT bodyT : String)
    (o : StepOracle) (row : Row) : RowStep :=
  match toAddrOf row with
  | none => ⟨.skipped (rowGet row "Email"), row, false, none⟩
  | some addr =>
    let msg := buildMessage subjT bodyT row addr
    match transportCall mode o msg with
    | .error e => ⟨.failed addr e, row, false, some msg⟩
    | .ok m =>
      match o.getMsg (m.id.getD "") with
      | .error e => ⟨.failed addr e, row, true, some msg⟩
      | .ok headers =>
        let mid := (headers.find? (fun h => pyLower h.name = "message-id")).map (fun h => h.value)
        let tid := m.threadId.getD ""
        let finish : RowStep :=
          ⟨.sent tid (mid.getD ""),
            setField (setField row "ThreadId" tid) "RfcMessageId" (mid.getD ""),
            true, some msg⟩
        match mode, labelId with
        | .newEmail, some lid =>
          match m.id with
          | none => ⟨.failed addr "KeyError: id", row, true, some msg⟩
          | some i =>
            match o.modify i lid with
            | .error e => ⟨.failed addr e, row, true, some msg⟩
            | .ok _ => finish
        | _, _ => finish

/-- The aggregates of a run: `sent_count`, `skipped`, `errors`, the mutated
table, the trace of slept durations, and the messages submitted to the
transport, in order. -/
structure DispatchResult where
  sentCount : Nat
  skipped : List (Option String)
  errors : List (String × String)
  rows : List Row
  sleeps : List ℚ
  submissions : List EmailMessage
deriving Repr

def dispatchAux (mode : Mode) (labelId : Option String) (subjT bodyT : String)
    (oracle : Nat → StepOracle) (jitter : Nat → ℚ) : Nat → List Row → DispatchResult
  | _, [] => ⟨0, [], [], [], [], []⟩
  | i, r :: rs =>
    let st := processRow mode labelId subjT bodyT (oracle i) r
    let rest := dispatchAux mode labelId subjT bodyT oracle jitter (i + 1) rs
    { sentCount := (match st.outcome with | .sent _ _ => 1 | _ => 0) + rest.sentCount
      skipped := (match st.outcome with | .skipped raw => [raw] | _ => []) ++ rest.skipped
      errors := (match st.outcome with | .failed a e => [(a, e)] | _ => []) ++ rest.errors
      rows := st.row :: rest.rows
      sleeps := (if st.slept then [jitter i] else []) ++ rest.sleeps
      submissions := st.submitted.toList ++ rest.submissions }

/-- The whole dispatch loop over the uploaded table. -/
def dispatch (mode : Mode) (labelId : Option String) (subjT bodyT : String)
    (oracle : Nat → StepOracle) (jitter : Nat → ℚ) (rows : List Row) : DispatchResult :=
  dispatchAux mode labelId subjT bodyT oracle jitter 0 (rows.map ensureCols)

/-- Whether the send or draft-create call of a row succeeds: the condition
under which the row reaches `time.sleep`. -/
def sendOk (mode : Mode) (subjT bodyT : String) (o : StepOracle) (row : Row) : Bool :=
  match toAddrOf row with
  | none => false
  | some addr =>
    match transportCall mode o (buildMessage subjT bodyT row addr) with
    | .ok _ => true
    | .error _ => false

/-- The slept durations the source prescribes: one draw per row whose
send or draft-create call succeeds, in row order. -/
def expectedSleeps (mode : Mode) (subjT bodyT : String) (oracle : Nat → StepOracle)
    (jitter : Nat → ℚ) : Nat → List Row → List ℚ
  | _, [] => []
  | i, r :: rs =>
    (if sendOk mode subjT bodyT (oracle i) r then [jitter i] else []) ++
      expectedSleeps mode subjT bodyT oracle jitter (i + 1) rs

/-- The shape of every string the regex can return: a nonempty addr-char
local part, `@`, a nonempty addr-char domain part, a dot, and a nonempty
word-character top-level part. -/
def emailShape (m : List Char) : Prop :=
  ∃ loc dom tld : List Char,
    m = loc ++ '@' :: (dom ++ '.' :: tld) ∧ loc ≠ [] ∧ dom ≠ [] ∧ tld ≠ [] ∧
      (∀ c ∈ loc, isAddrChar c = true) ∧ (∀ c ∈ dom, isAddrChar c = true) ∧
      (∀ c ∈ tld, isWordChar c = true)

/-! ### Concrete oracles for counterexamples and witnesses -/
/-- A transport whose send and draft-create succeed but whose metadata
fetch raises. -/
def metaFailOracle : StepOracle :=
  { send := fun _ => .ok ⟨some "m1", some "t1"⟩
    draft := fun _ => .ok ⟨some "m1", some "t1"⟩
    getMsg := fun _ => .error "metadata boom"
    modify := fun _ _ => .ok () }

/-- A transport whose calls all succeed but whose metadata response has no
`Message-ID` header. -/
def noMidOracle : StepOracle :=
  { send := fun _ => .ok ⟨some "m1", some "t1"⟩
    draft := fun _ => .ok ⟨some "m1", some "t1"⟩
    getMsg := fun _ => .ok [⟨"X-Other", "v"⟩]
    modify := fun _ _ => .ok () }

/-- A transport whose calls all succeed, with a `Message-ID` header. -/
def okOracle : StepOracle :=
  { send := fun _ => .ok ⟨some "m1", some "t1"⟩
    draft := fun _ => .ok ⟨some "m1", some "t1"⟩
    getMsg := fun _ => .ok [⟨"Message-ID", "<mid@mail>"⟩]
    modify := fun _ _ => .ok () }

/-! ### Well-formed templates and the spec-side renderer for C6

A well-formed template is a sequence of literal characters that are not
braces and `{name}` placeholders whose names are plain: nonempty, free of
braces, format-spec and conversion markers, attribute or index access, and
newlines, and not all digits (digit-only names are positional indices for
`str.format`). Such templates are quantified through their chunk lists,
printed back to the template string. -/
def printChunk : FmtChunk → List Char
  | .lit c => [c]
  | .field nm => '{' :: nm.toList ++ ['}']

def printChunks : List FmtChunk → List Char
  | [] => []
  | c :: cs => printChunk c ++ printChunks cs

def plainNameChar (c : Char) : Bool :=
  !(c = '{' || c = '}' || c = ':' || c = '!' || c = '.' || c = '[' || c = ']' || c = '\n')

def plainName (nm : String) : Bool :=
  !(nm = "") && nm.toList.all plainNameChar && !(nm.toList.all Char.isDigit)

def chunkOkay : FmtChunk → Bool
  | .lit c => !(c = '{' || c = '}')
  | .field nm => plainName nm

def chunksWF (cs : List FmtChunk) : Bool := cs.all chunkOkay

def fieldNames : List FmtChunk → List String
  | [] => []
  | .lit _ :: cs => fieldNames cs
  | .field nm :: cs => nm :: fieldNames cs

/-- Substitution through a lookup with the empty-string default. -/
def renderTotal (look : String → Option String) : List FmtChunk → List Char
  | [] => []
  | .lit c :: cs => c :: renderTotal look cs
  | .field nm :: cs => ((look nm).getD "").toList ++ renderTotal look cs

/-- The renderer the spec describes: every `{field}` placeholder replaced
by the stringified row value, an absent field by the empty string. -/
def specRender (row : Row) : List FmtChunk → List Char
  | [] => []
  | .lit c :: cs => c :: specRender row cs
  | .field nm :: cs => ((rowGet row nm).getD "").toList ++ specRender row cs

/-! ### Theorems and evaluations -/

example : extract_email (some "John <john.doe@example.com>") = some "john.doe@example.com" := by decide

example : extract_email (some "") = none := by decide

example : extract_email none = none := by decide

example : extract_email (some "a@b.1") = some "a@b.1" := by decide

example : extract_email (some "no address here") = none := by decide

example : extract_email (some "x a@b.c.d y") = some "a@b.c.d" := by decide

example : convert_bold none = "" := rfl

example : convert_bold (some "") = "" := rfl

example : markupSubs "**Hi** [Go](https://go.dev)" =
    "<b>Hi</b> <a href=\"https://go.dev\" style=\"color:#1a73e8; text-decoration:underline;\" target=\"_blank\">Go</a>" := by
  decide

example : markupSubs "[x](ftp://y)" = "[x](ftp://y)" := by decide

example : markupSubs "a\nb  c" = "a<br>b&nbsp;&nbsp;c" := by decide

example : markupSubs "***a**" = "<b>*a</b>" := by decide

example : markupSubs "**a\n**b**" = "**a<br><b>b</b>" := by decide

example : markupSubs "[a](x) [b](http://y)" =
    "<a href=\"http://y\" style=\"color:#1a73e8; text-decoration:underline;\" target=\"_blank\">a](x) [b</a>" := by
  decide

example : markupSubs "[a](http://)" = "[a](http://)" := by decide

example : markupSubs "[a](http://x y)" = "[a](http://x y)" := by decide

example : safe_format_template "Hello {Name}" [("Name", "Alice")] = "Hello Alice" := by decide

example : safe_format_template "Hello {Missing}" [] = "Hello " := by decide

example : safe_format_template "Hello \x7b" [] = "Hello \x7b" := by decide

example : safe_format_template "a\x7db" [] = "a\x7db" := by decide

example : safe_format_template "{A} {B}" [("A", "x")] = "x " := by decide

example : safe_format_template "{{esc}} {A}" [("A", "x")] = "{esc} x" := by decide

example : safe_format_template "x{{{A}}}y" [] = "x{{{A}}}y" := by decide

/-! ### Structure lemmas for the email matcher -/
theorem takeWhile_append_all {p : Char → Bool} :
    ∀ {xs ys : List Char}, (∀ x ∈ xs, p x = true) →
      (xs ++ ys).takeWhile p = xs ++ ys.takeWhile p := by
  intro xs
  induction xs with
  | nil => intro ys h; simp
  | cons c rest ih =>
    intro ys h
    have hc : p c = true := h c (List.mem_cons_self c rest)
    simp only [List.cons_append, List.takeWhile_cons, hc, if_true]
    rw [ih (fun x hx => h x (List.mem_cons_of_mem c hx))]

theorem bestSplit_sound :
    ∀ {r2 dl w : List Char}, bestSplit r2 = some (dl, w) →
      ∃ cs, r2 = dl ++ '.' :: cs ∧ w = cs.takeWhile isWordChar ∧ w ≠ [] := by
  intro r2
  induction r2 with
  | nil => intro dl w h; simp [bestSplit] at h
  | cons c cs ih =>
    intro dl w h
    rw [bestSplit] at h
    rcases hb : bestSplit cs with _ | ⟨dl', w'⟩
    · rw [hb] at h
      simp only [] at h
      split at h
      · rename_i hc
        subst hc
        split at h
        · cases h
        · rename_i hw
          cases h
          exact ⟨cs, rfl, rfl, by simpa [List.isEmpty_iff] using hw⟩
      · cases h
    · rw [hb] at h
      simp only [] at h
      cases h
      obtain ⟨cs', hcs, hw, hne⟩ := ih hb
      exact ⟨cs', by rw [hcs]; rfl, hw, hne⟩

theorem matchDomain_sound {l d : List Char} (h : matchDomain l = some d) :
    ∃ dom tld rest, d = dom ++ '.' :: tld ∧ dom ≠ [] ∧ tld ≠ [] ∧
      (∀ c ∈ dom, isAddrChar c = true) ∧ (∀ c ∈ tld, isWordChar c = true) ∧
      l = d ++ rest := by
  rw [matchDomain] at h
  rcases hb : bestSplit (l.takeWhile isAddrChar) with _ | ⟨dl, w⟩
  · rw [hb] at h; cases h
  · rw [hb] at h
    simp only [] at h
    split at h
    · cases h
    · rename_i hdl
      cases h
      obtain ⟨cs, hcs, hw, hne⟩ := bestSplit_sound hb
      refine ⟨dl, w, cs.dropWhile isWordChar ++ l.dropWhile isAddrChar, rfl,
        by simpa [List.isEmpty_iff] using hdl, hne, ?_, ?_, ?_⟩
      · intro c hc
        exact List.mem_takeWhile_imp (by rw [hcs]; exact List.mem_append_left _ hc)
      · intro c hc
        rw [hw] at hc
        exact List.mem_takeWhile_imp hc
      · have hsplit : l.takeWhile isAddrChar ++ l.dropWhile isAddrChar = l :=
          List.takeWhile_append_dropWhile isAddrChar l
        have hcs2 : cs = w ++ cs.dropWhile isWordChar := by
          rw [hw]
          exact (List.takeWhile_append_dropWhile isWordChar cs).symm
        calc l = l.takeWhile isAddrChar ++ l.dropWhile isAddrChar := hsplit.symm
          _ = (dl ++ '.' :: cs) ++ l.dropWhile isAddrChar := by rw [hcs]
          _ = (dl ++ '.' :: (w ++ cs.dropWhile isWordChar)) ++ l.dropWhile isAddrChar := by
                rw [← hcs2]
          _ = (dl ++ '.' :: w) ++ (cs.dropWhile isWordChar ++ l.dropWhile isAddrChar) := by
                simp [List.append_assoc]

theorem matchAt_sound {l m : List Char} (h : matchAt l = some m) :
    emailShape m ∧ ∃ post, l = m ++ post := by
  simp only [matchAt] at h
  split at h
  · cases h
  · rename_i hr1
    split at h
    · rename_i rest2 heq
      rcases hd : matchDomain rest2 with _ | d
      · rw [hd] at h; cases h
      · rw [hd] at h
        simp only [Option.map_some'] at h
        cases h
        obtain ⟨dom, tld, rest, hdec, hdom, htld, hdoma, htldw, hrest⟩ := matchDomain_sound hd
        constructor
        · refine ⟨l.takeWhile isAddrChar, dom, tld, by rw [hdec], ?_, hdom, htld, ?_, hdoma, htldw⟩
          · simpa [List.isEmpty_iff] using hr1
          · intro c hc
            exact List.mem_takeWhile_imp hc
        · refine ⟨rest, ?_⟩
          have hsplit : l.takeWhile isAddrChar ++ l.dropWhile isAddrChar = l :=
            List.takeWhile_append_dropWhile isAddrChar l
          calc l = l.takeWhile isAddrChar ++ l.dropWhile isAddrChar := hsplit.symm
            _ = l.takeWhile isAddrChar ++ '@' :: rest2 := by rw [heq]
            _ = l.takeWhile isAddrChar ++ '@' :: (d ++ rest) := by rw [← hrest]
            _ = (l.takeWhile isAddrChar ++ '@' :: d) ++ rest := by simp [List.append_assoc]
    · cases h

theorem searchEmail_sound :
    ∀ {l m : List Char}, searchEmail l = some m →
      emailShape m ∧ ∃ pre post, l = pre ++ m ++ post := by
  intro l
  induction l with
  | nil => intro m h; simp [searchEmail] at h
  | cons c cs ih =>
    intro m h
    rw [searchEmail] at h
    rcases hm : matchAt (c :: cs) with _ | m'
    · rw [hm] at h
      obtain ⟨hsh, pre, post, hdec⟩ := ih h
      exact ⟨hsh, c :: pre, post, by simp [hdec, List.append_assoc]⟩
    · rw [hm] at h
      cases h
      obtain ⟨hsh, post, hdec⟩ := matchAt_sound hm
      exact ⟨hsh, [], post, by simpa using hdec⟩

theorem after_last_dot (A tld : List Char) (h : ∀ c ∈ tld, ¬c = '.') :
    ((A ++ '.' :: tld).reverse.takeWhile (fun c => c != '.')).reverse = tld := by
  rw [List.reverse_append, List.reverse_cons]
  rw [List.append_assoc]
  rw [takeWhile_append_all (p := fun c => c != '.')]
  · have hstop : (['.'] ++ A.reverse).takeWhile (fun c => c != '.') = [] := by
      simp [List.takeWhile]
    rw [hstop]
    simp
  · intro x hx
    have := h x (by simpa using hx)
    simpa using this

/-! ### Claim C5 -/
/-- C5 is refuted at input `"a@b.1"`: the code returns the full match
`"a@b.1"`, but no decomposition of that string as `local@domain.tld` has a
nonempty alphabetic top-level part after its final dot, so the claim (which
requires alphabetic TLD characters, hence a null result here) is false. -/
theorem extract_email_claim_counterexample :
    extract_email (some "a@b.1") = some "a@b.1" ∧
    ¬∃ loc dom tld : List Char,
        "a@b.1".toList = loc ++ '@' :: (dom ++ '.' :: tld) ∧ tld ≠ [] ∧
          ∀ c ∈ tld, c.isAlpha = true := by
  refine ⟨by decide, ?_⟩
  rintro ⟨loc, dom, tld, heq, hne, halpha⟩
  have hnd : ∀ c ∈ tld, ¬c = '.' := by
    intro c hc he
    have := halpha c hc
    rw [he] at this
    exact absurd this (by decide)
  have hal := after_last_dot (loc ++ '@' :: dom) tld hnd
  rw [show (loc ++ '@' :: dom) ++ '.' :: tld = loc ++ '@' :: (dom ++ '.' :: tld) by
    simp [List.append_assoc]] at hal
  rw [← heq] at hal
  have h1 : (("a@b.1".toList.reverse).takeWhile (fun c => c != '.')).reverse = ['1'] := by
    decide
  rw [h1] at hal
  have := halpha '1' (by rw [← hal]; exact List.mem_cons_self _ _)
  exact absurd this (by decide)

/-- C5 (amended): `extract_email` returns null for null or empty input and
null when the regex has no match; any returned value is a contiguous
substring of the input of the shape `local@domain.tld` in which local and
domain consist of word characters, dots and hyphens, and the part after the
final dot is a nonempty run of word characters — letters, digits or
underscore, not alphabetic characters only; the documented example holds. -/
theorem extract_email_spec :
    extract_email none = none ∧
    extract_email (some "") = none ∧
    extract_email (some "John <john.doe@example.com>") = some "john.doe@example.com" ∧
    ∀ s m, extract_email (some s) = some m →
      (∃ pre post : List Char, s.toList = pre ++ m.toList ++ post) ∧ emailShape m.toList := by
  refine ⟨rfl, rfl, by decide, ?_⟩
  intro s m h
  rw [extract_email] at h
  split at h
  · cases h
  · rcases hs : searchEmail s.toList with _ | ml
    · rw [hs] at h; cases h
    · rw [hs] at h
      simp only [Option.map_some'] at h
      obtain ⟨hsh, pre, post, hdec⟩ := searchEmail_sound hs
      cases h
      exact ⟨⟨pre, post, by simpa [List.append_assoc] using hdec⟩, hsh⟩

theorem extract_email_spec_witness :
    (∃ pre post : List Char, "x a@b.c y".toList = pre ++ "a@b.c".toList ++ post) ∧
      emailShape "a@b.c".toList :=
  extract_email_spec.2.2.2 "x a@b.c y" "a@b.c" (by decide)

/-! ### Claim C10 -/
/-- C10: empty or null input to the markup post-processor yields the empty
string — the HTML document wrapper added around every nonempty body is not
produced, so an empty rendered body gives an empty message body. -/
theorem convert_bold_empty :
    convert_bold none = "" ∧ convert_bold (some "") = "" ∧
    ∀ s : String, s ≠ "" → convert_bold (some s) = wrapHtml (markupSubs s) := by
  refine ⟨rfl, rfl, ?_⟩
  intro s hs
  simp [convert_bold, hs]

theorem convert_bold_empty_witness :
    convert_bold none = "" ∧ convert_bold (some "") = "" ∧
      convert_bold (some "x") = wrapHtml (markupSubs "x") :=
  ⟨convert_bold_empty.1, convert_bold_empty.2.1, convert_bold_empty.2.2 "x" (by decide)⟩

/-! ### Claim C8 -/
/-- C8: when the name of some stored label matches the requested name
case-insensitively, `get_or_create_label` returns the id of the first such label
and leaves the store unchanged; calling it again with the same name returns
the same id again, and no label is ever created. -/
theorem get_or_create_label_idempotent (gen : List GLabel → String)
    (labels : List GLabel) (name : String) (l : GLabel)
    (h : labels.find? (fun lb => pyLower lb.name = pyLower name) = some l) :
    get_or_create_label gen labels name = (l.id, labels) ∧
      get_or_create_label gen (get_or_create_label gen labels name).2 name = (l.id, labels) := by
  constructor
  · simp [get_or_create_label, h]
  · simp [get_or_create_label, h]

theorem get_or_create_label_idempotent_witness :
    get_or_create_label (fun _ => "fresh") [⟨"id7", "mail MERGE sent"⟩] "Mail Merge Sent" =
        ("id7", [⟨"id7", "mail MERGE sent"⟩]) ∧
      get_or_create_label (fun _ => "fresh")
          (get_or_create_label (fun _ => "fresh") [⟨"id7", "mail MERGE sent"⟩] "Mail Merge Sent").2
          "Mail Merge Sent" = ("id7", [⟨"id7", "mail MERGE sent"⟩]) :=
  get_or_create_label_idempotent (fun _ => "fresh") [⟨"id7", "mail MERGE sent"⟩]
    "Mail Merge Sent" ⟨"id7", "mail MERGE sent"⟩ (by decide)

/-! ### Per-row lemmas about the dispatch loop -/
theorem processRow_slept (mode : Mode) (labelId : Option String) (subjT bodyT : String)
    (o : StepOracle) (r : Row) :
    (processRow mode labelId subjT bodyT o r).slept = sendOk mode subjT bodyT o r := by
  rw [processRow, sendOk]
  rcases h1 : toAddrOf r with _ | addr
  · rfl
  · simp only []
    rcases h2 : transportCall mode o (buildMessage subjT bodyT r addr) with e | m
    · rfl
    · simp only []
      rcases h3 : o.getMsg (m.id.getD "") with e | headers
      · rfl
      · simp only []
        rcases mode with _ | _ | _ <;> rcases labelId with _ | lid <;>
          simp only [] <;>
          first
            | rfl
            | (rcases hid : m.id with _ | i
               · simp [hid]
               · rcases hmod : o.modify i lid with e | u <;> simp [hid, hmod])

theorem processRow_submitted (mode : Mode) (labelId : Option String) (subjT bodyT : String)
    (o : StepOracle) (r : Row) (addr : String) (ha : toAddrOf r = some addr) :
    (processRow mode labelId subjT bodyT o r).submitted =
      some (buildMessage subjT bodyT r addr) := by
  rw [processRow, ha]
  simp only []
  rcases h2 : transportCall mode o (buildMessage subjT bodyT r addr) with e | m
  · rfl
  · simp only []
    rcases h3 : o.getMsg (m.id.getD "") with e | headers
    · rfl
    · simp only []
      rcases mode with _ | _ | _ <;> rcases labelId with _ | lid <;>
        simp only [] <;>
        first
          | rfl
          | (rcases hid : m.id with _ | i
             · simp [hid]
             · rcases hmod : o.modify i lid with e | u <;> simp [hid, hmod])

theorem rowGet_setField_ne (r : Row) (k v : String) (k' : String) (h : k' ≠ k) :
    rowGet (setField r k v) k' = rowGet r k' := by
  have hk : ¬k = k' := fun he => h he.symm
  induction r with
  | nil => simp [setField, rowGet, hk]
  | cons p rest ih =>
    rcases p with ⟨pk, pv⟩
    by_cases hpk : pk = k
    · subst hpk
      simp [setField, rowGet, hk]
    · simp [setField, hpk, rowGet, ih]

theorem rowGet_setField_self (r : Row) (k v : String) :
    rowGet (setField r k v) k = some v := by
  induction r with
  | nil => simp [setField, rowGet]
  | cons p rest ih =>
    rcases p with ⟨pk, pv⟩
    by_cases hpk : pk = k
    · subst hpk
      simp [setField, rowGet]
    · simp [setField, hpk, rowGet, ih]

theorem processRow_frame (mode : Mode) (labelId : Option String) (subjT bodyT : String)
    (o : StepOracle) (r : Row) (k : String)
    (h1 : k ≠ "ThreadId") (h2 : k ≠ "RfcMessageId") :
    rowGet (processRow mode labelId subjT bodyT o r).row k = rowGet r k := by
  rw [processRow]
  rcases ha : toAddrOf r with _ | addr
  · rfl
  · simp only []
    rcases hs : transportCall mode o (buildMessage subjT bodyT r addr) with e | m
    · rfl
    · simp only []
      rcases hg : o.getMsg (m.id.getD "") with e | headers
      · rfl
      · simp only []
        have hfr : rowGet (setField (setField r "ThreadId" (m.threadId.getD ""))
            "RfcMessageId" ((((headers.find? (fun h => pyLower h.name = "message-id"))).map
              (fun h => h.value)).getD "")) k = rowGet r k := by
          rw [rowGet_setField_ne _ _ _ _ h2, rowGet_setField_ne _ _ _ _ h1]
        rcases mode with _ | _ | _ <;> rcases labelId with _ | lid <;>
          simp only [] <;>
          first
            | exact hfr
            | (rcases hid : m.id with _ | i
               · simp [hid]
               · rcases hmod : o.modify i lid with e | u
                 · simp [hid, hmod]
                 · simp only [hid, hmod]
                   exact hfr)

theorem rowGet_append_ne (r : Row) (k v k' : String) (h : k' ≠ k) :
    rowGet (r ++ [(k, v)]) k' = rowGet r k' := by
  have hk : ¬k = k' := fun he => h he.symm
  induction r with
  | nil => simp [rowGet, hk]
  | cons p rest ih =>
    rcases p with ⟨pk, pv⟩
    by_cases hpk : pk = k'
    · simp [rowGet, hpk]
    · simp [rowGet, hpk, ih]

theorem rowGet_ensureField_ne (r : Row) (k k' : String) (h : k' ≠ k) :
    rowGet (ensureField r k) k' = rowGet r k' := by
  rw [ensureField]
  split
  · rfl
  · exact rowGet_append_ne r k "" k' h

theorem rowGet_ensureCols_ne (r : Row) (k : String)
    (h1 : k ≠ "ThreadId") (h2 : k ≠ "RfcMessageId") :
    rowGet (ensureCols r) k = rowGet r k := by
  rw [ensureCols, rowGet_ensureField_ne _ _ _ h2, rowGet_ensureField_ne _ _ _ h1]

/-! ### Loop-level lemmas -/
theorem dispatchAux_counts (mode : Mode) (labelId : Option String) (subjT bodyT : String)
    (oracle : Nat → StepOracle) (jitter : Nat → ℚ) :
    ∀ (rows : List Row) (i : Nat),
      (dispatchAux mode labelId subjT bodyT oracle jitter i rows).sentCount +
          (dispatchAux mode labelId subjT bodyT oracle jitter i rows).skipped.length +
          (dispatchAux mode labelId subjT bodyT oracle jitter i rows).errors.length =
        rows.length ∧
      (dispatchAux mode labelId subjT bodyT oracle jitter i rows).rows.length = rows.length := by
  intro rows
  induction rows with
  | nil => intro i; simp [dispatchAux]
  | cons r rs ih =>
    intro i
    obtain ⟨ih1, ih2⟩ := ih (i + 1)
    rcases ho : (processRow mode labelId subjT bodyT (oracle i) r).outcome with raw | ⟨a, e⟩ | ⟨t, mi⟩ <;>
      (constructor
       · simp only [dispatchAux, ho, List.length_append, List.length_cons, List.length_nil]
         omega
       · simp only [dispatchAux, List.length_cons]
         omega)

theorem dispatchAux_frame (mode : Mode) (labelId : Option String) (subjT bodyT : String)
    (oracle : Nat → StepOracle) (jitter : Nat → ℚ) :
    ∀ (rows : List Row) (i n : Nat) (k : String), k ≠ "ThreadId" → k ≠ "RfcMessageId" →
      rowGet ((dispatchAux mode labelId subjT bodyT oracle jitter i rows).rows.getD n []) k =
        rowGet (rows.getD n []) k := by
  intro rows
  induction rows with
  | nil => intro i n k h1 h2; simp [dispatchAux]
  | cons r rs ih =>
    intro i n k h1 h2
    cases n with
    | zero =>
      simp only [dispatchAux, List.getD_cons_zero]
      exact processRow_frame mode labelId subjT bodyT (oracle i) r k h1 h2
    | succ n =>
      simp only [dispatchAux, List.getD_cons_succ]
      exact ih (i + 1) n k h1 h2

theorem dispatchAux_sleeps (mode : Mode) (labelId : Option String) (subjT bodyT : String)
    (oracle : Nat → StepOracle) (jitter : Nat → ℚ) :
    ∀ (rows : List Row) (i : Nat),
      (dispatchAux mode labelId subjT bodyT oracle jitter i rows).sleeps =
        expectedSleeps mode subjT bodyT oracle jitter i rows := by
  intro rows
  induction rows with
  | nil => intro i; simp [dispatchAux, expectedSleeps]
  | cons r rs ih =>
    intro i
    simp only [dispatchAux, expectedSleeps, processRow_slept, ih (i + 1)]

theorem expectedSleeps_mem (mode : Mode) (subjT bodyT : String)
    (oracle : Nat → StepOracle) (jitter : Nat → ℚ) :
    ∀ (rows : List Row) (i : Nat) (x : ℚ),
      x ∈ expectedSleeps mode subjT bodyT oracle jitter i rows → ∃ j, x = jitter j := by
  intro rows
  induction rows with
  | nil => intro i x hx; simp [expectedSleeps] at hx
  | cons r rs ih =>
    intro i x hx
    rw [expectedSleeps] at hx
    rcases List.mem_append.mp hx with hx | hx
    · split at hx
      · exact ⟨i, by simpa using hx⟩
      · simp at hx
    · exact ih (i + 1) x hx

/-! ### Claim C4 -/
/-- C4: the loop processes every row, each row yields exactly one outcome
(the success count plus the skipped and failed list lengths equals the
input row count), and the augmented table has the same number of rows as
the input, for every mode, transport behavior and input table. -/
theorem dispatch_outcome_partition (mode : Mode) (labelId : Option String)
    (subjT bodyT : String) (oracle : Nat → StepOracle) (jitter : Nat → ℚ)
    (rows : List Row) :
    (dispatch mode labelId subjT bodyT oracle jitter rows).sentCount +
        (dispatch mode labelId subjT bodyT oracle jitter rows).skipped.length +
        (dispatch mode labelId subjT bodyT oracle jitter rows).errors.length = rows.length ∧
    (dispatch mode labelId subjT bodyT oracle jitter rows).rows.length = rows.length := by
  obtain ⟨h1, h2⟩ := dispatchAux_counts mode labelId subjT bodyT oracle jitter
    (rows.map ensureCols) 0
  rw [List.length_map] at h1 h2
  exact ⟨h1, h2⟩

/-! ### Claim C9 -/
/-- C9: the loop mutates rows only in the `ThreadId` and `RfcMessageId`
fields: for every input table, transport behavior and outcome pattern,
every other column of every row holds the same value in the output table
as in the input table. -/
theorem dispatch_frame (mode : Mode) (labelId : Option String) (subjT bodyT : String)
    (oracle : Nat → StepOracle) (jitter : Nat → ℚ) (rows : List Row) :
    (dispatch mode labelId subjT bodyT oracle jitter rows).rows.length = rows.length ∧
    ∀ (n : Nat) (k : String), k ≠ "ThreadId" → k ≠ "RfcMessageId" →
      rowGet ((dispatch mode labelId subjT bodyT oracle jitter rows).rows.getD n []) k =
        rowGet (rows.getD n []) k := by
  refine ⟨(dispatch_outcome_partition mode labelId subjT bodyT oracle jitter rows).2, ?_⟩
  intro n k h1 h2
  rw [dispatch, dispatchAux_frame mode labelId subjT bodyT oracle jitter _ 0 n k h1 h2]
  induction rows generalizing n with
  | nil => simp
  | cons r rs ih =>
    cases n with
    | zero =>
      simp only [List.map_cons, List.getD_cons_zero]
      exact rowGet_ensureCols_ne r k h1 h2
    | succ n =>
      simp only [List.map_cons, List.getD_cons_succ]
      exact ih n

theorem dispatch_frame_witness :
    (dispatch .newEmail none "S" "B" (fun _ => ⟨fun _ => .error "x", fun _ => .error "x",
        fun _ => .error "x", fun _ _ => .error "x"⟩) (fun _ => 1)
      [[("Email", "a@b.cc"), ("Name", "Ann")]]).rows.length = 1 ∧
    rowGet ((dispatch .newEmail none "S" "B" (fun _ => ⟨fun _ => .error "x", fun _ => .error "x",
        fun _ => .error "x", fun _ _ => .error "x"⟩) (fun _ => 1)
      [[("Email", "a@b.cc"), ("Name", "Ann")]]).rows.getD 0 []) "Name" =
      rowGet [("Email", "a@b.cc"), ("Name", "Ann")] "Name" := by
  refine ⟨(dispatch_frame .newEmail none "S" "B" _ _ _).1, ?_⟩
  have := (dispatch_frame .newEmail none "S" "B" (fun _ => ⟨fun _ => .error "x", fun _ => .error "x",
      fun _ => .error "x", fun _ _ => .error "x"⟩) (fun _ => 1)
    [[("Email", "a@b.cc"), ("Name", "Ann")]]).2 0 "Name" (by decide) (by decide)
  simpa using this

/-! ### Claim C1 -/
/-- C1 is refuted: for a one-row table whose address validates and whose
draft-create call succeeds, a failing metadata fetch lands the row in
`errors` with zero successes — the metadata-fetch failure does fail the
row, instead of the row succeeding with empty correlation ids. -/
theorem metadata_failure_claim_counterexample :
    (dispatch .saveDraft none "S" "B" (fun _ => metaFailOracle) (fun _ => 1)
        [[("Email", "a@b.cc")]]).sentCount = 0 ∧
    (dispatch .saveDraft none "S" "B" (fun _ => metaFailOracle) (fun _ => 1)
        [[("Email", "a@b.cc")]]).errors = [("a@b.cc", "metadata boom")] ∧
    (dispatch .saveDraft none "S" "B" (fun _ => metaFailOracle) (fun _ => 1)
        [[("Email", "a@b.cc")]]).skipped = [] := by
  refine ⟨?_, ?_, ?_⟩ <;> rfl

/-- C1 (amended): after a successful send or draft-create, an exception of
the metadata-fetch call makes the outcome of the row Failed and leaves the row
unannotated; only when the metadata fetch succeeds but carries no
`Message-ID` header does the row still succeed, with `RfcMessageId`
defaulting to the empty string (and `ThreadId` taken from the submit
response). -/
theorem metadata_fetch_behavior (mode : Mode) (labelId : Option String)
    (subjT bodyT : String) (o : StepOracle) (row : Row) (addr : String) (m : SentMsg)
    (ha : toAddrOf row = some addr)
    (hs : transportCall mode o (buildMessage subjT bodyT row addr) = .ok m) :
    (∀ e, o.getMsg (m.id.getD "") = .error e →
       (processRow mode labelId subjT bodyT o row).outcome = .failed addr e ∧
       (processRow mode labelId subjT bodyT o row).row = row) ∧
    (∀ headers, o.getMsg (m.id.getD "") = .ok headers →
       (∀ h ∈ headers, ¬pyLower h.name = "message-id") →
       (mode = .newEmail → labelId = none) →
       (processRow mode labelId subjT bodyT o row).outcome = .sent (m.threadId.getD "") "" ∧
       rowGet (processRow mode labelId subjT bodyT o row).row "RfcMessageId" = some "") := by
  constructor
  · intro e hg
    rw [processRow, ha]
    simp only []
    rw [hs]
    simp only []
    rw [hg]
    exact ⟨rfl, rfl⟩
  · intro headers hg hno hlbl
    have hfind : headers.find? (fun h => pyLower h.name = "message-id") = none := by
      rw [List.find?_eq_none]
      intro h hh
      simpa using hno h hh
    rw [processRow, ha]
    simp only []
    rw [hs]
    simp only []
    rw [hg]
    simp only [hfind, Option.map_none', Option.getD_none]
    rcases mode with _ | _ | _
    · rw [hlbl rfl]
      exact ⟨by trivial, rowGet_setField_self _ _ _⟩
    · exact ⟨by trivial, rowGet_setField_self _ _ _⟩
    · exact ⟨by trivial, rowGet_setField_self _ _ _⟩

theorem metadata_fetch_behavior_witness :
    ((processRow .saveDraft none "S" "B" metaFailOracle [("Email", "a@b.cc")]).outcome =
        .failed "a@b.cc" "metadata boom" ∧
      (processRow .saveDraft none "S" "B" metaFailOracle [("Email", "a@b.cc")]).row =
        [("Email", "a@b.cc")]) ∧
    ((processRow .followUpReply none "S" "B" noMidOracle [("Email", "a@b.cc")]).outcome =
        .sent "t1" "" ∧
      rowGet (processRow .followUpReply none "S" "B" noMidOracle [("Email", "a@b.cc")]).row
        "RfcMessageId" = some "") :=
  ⟨(metadata_fetch_behavior .saveDraft none "S" "B" metaFailOracle [("Email", "a@b.cc")]
      "a@b.cc" ⟨some "m1", some "t1"⟩ (by decide) rfl).1 "metadata boom" rfl,
   (metadata_fetch_behavior .followUpReply none "S" "B" noMidOracle [("Email", "a@b.cc")]
      "a@b.cc" ⟨some "m1", some "t1"⟩ (by decide) rfl).2 [⟨"X-Other", "v"⟩] rfl
      (by decide) (fun h => nomatch h)⟩

/-! ### Claim C2 -/
/-- C2 is refuted: a row whose draft-create succeeds and whose metadata
fetch then raises ends with outcome Failed, yet its jittered delay was
already consumed — the sleep trace is nonempty although no row succeeded. -/
theorem jitter_sleep_claim_counterexample :
    (dispatch .saveDraft none "S" "B" (fun _ => metaFailOracle) (fun _ => 1)
        [[("Email", "a@b.cc")]]).sleeps = [1] ∧
    (dispatch .saveDraft none "S" "B" (fun _ => metaFailOracle) (fun _ => 1)
        [[("Email", "a@b.cc")]]).sentCount = 0 ∧
    (dispatch .saveDraft none "S" "B" (fun _ => metaFailOracle) (fun _ => 1)
        [[("Email", "a@b.cc")]]).errors.length = 1 := by
  refine ⟨?_, ?_, ?_⟩ <;> rfl

/-- C2 (amended): every slept duration lies in `[0.9 d, 1.1 d]`, and the
sleep trace contains exactly one draw per row whose send or draft-create
call succeeds, in row order — skipped rows and rows that fail at the
submit call consume no delay, while rows that fail afterwards (metadata
fetch or label application) do. -/
theorem jitter_sleep_spec (mode : Mode) (labelId : Option String) (subjT bodyT : String)
    (oracle : Nat → StepOracle) (jitter : Nat → ℚ) (d : ℚ) (rows : List Row)
    (hj : ∀ i, 0.9 * d ≤ jitter i ∧ jitter i ≤ 1.1 * d) :
    (dispatch mode labelId subjT bodyT oracle jitter rows).sleeps =
      expectedSleeps mode subjT bodyT oracle jitter 0 (rows.map ensureCols) ∧
    ∀ x ∈ (dispatch mode labelId subjT bodyT oracle jitter rows).sleeps,
      0.9 * d ≤ x ∧ x ≤ 1.1 * d := by
  have he : (dispatch mode labelId subjT bodyT oracle jitter rows).sleeps =
      expectedSleeps mode subjT bodyT oracle jitter 0 (rows.map ensureCols) :=
    dispatchAux_sleeps mode labelId subjT bodyT oracle jitter (rows.map ensureCols) 0
  refine ⟨he, ?_⟩
  intro x hx
  rw [he] at hx
  obtain ⟨j, rfl⟩ := expectedSleeps_mem mode subjT bodyT oracle jitter _ 0 x hx
  exact hj j

theorem jitter_sleep_spec_witness :
    (dispatch .saveDraft none "S" "B" (fun _ => okOracle) (fun _ => 1) [[("Email", "a@b.cc")]]).sleeps =
      expectedSleeps .saveDraft "S" "B" (fun _ => okOracle) (fun _ => 1) 0
        ([[("Email", "a@b.cc")]].map ensureCols) ∧
    ∀ x ∈ (dispatch .saveDraft none "S" "B" (fun _ => okOracle) (fun _ => 1)
        [[("Email", "a@b.cc")]]).sleeps, 0.9 * (1 : ℚ) ≤ x ∧ x ≤ 1.1 * (1 : ℚ) :=
  jitter_sleep_spec .saveDraft none "S" "B" (fun _ => okOracle) (fun _ => 1) 1
    [[("Email", "a@b.cc")]] (fun _ => by norm_num)

/-! ### Claim C3 -/
/-- C3 exhibits a code bug: in follow-up mode the loop builds and submits
the message from recipient, subject and body alone — the stored
`ThreadId`/`RfcMessageId` never reach the transport (the request body is
only `{"raw": raw}`, with no thread reference and no `In-Reply-To`), so
two rows differing only in those fields submit identical messages, against
the documented intent that a follow-up addresses the prior thread. -/
theorem followup_submission_ignores_stored_ids (o : StepOracle) (t1 m1 t2 m2 : String) :
    (processRow .followUpReply none "Hi {Name}" "Hello" o
        [("Email", "a@b.com"), ("Name", "Ann"), ("ThreadId", t1), ("RfcMessageId", m1)]).submitted =
      (processRow .followUpReply none "Hi {Name}" "Hello" o
        [("Email", "a@b.com"), ("Name", "Ann"), ("ThreadId", t2), ("RfcMessageId", m2)]).submitted ∧
    (processRow .followUpReply none "Hi {Name}" "Hello" o
        [("Email", "a@b.com"), ("Name", "Ann"), ("ThreadId", t1), ("RfcMessageId", m1)]).submitted =
      some ⟨"a@b.com", "Hi Ann", convert_bold (some "Hello")⟩ := by
  have h1 := processRow_submitted .followUpReply none "Hi {Name}" "Hello" o
    [("Email", "a@b.com"), ("Name", "Ann"), ("ThreadId", t1), ("RfcMessageId", m1)] "a@b.com" rfl
  have h2 := processRow_submitted .followUpReply none "Hi {Name}" "Hello" o
    [("Email", "a@b.com"), ("Name", "Ann"), ("ThreadId", t2), ("RfcMessageId", m2)] "a@b.com" rfl
  rw [h1, h2]
  exact ⟨rfl, rfl⟩

/-! ### Claim C7 -/
/-- C7: the body — never the subject — goes through the markup
post-processor, whose passes run in the order bold, link, line break,
double space before wrapping; the documented example produces the emphasis
and hyperlink markup, and a link with a non-`http(s)` scheme is left as
literal text. -/
theorem markup_pipeline :
    (∀ s : String, s ≠ "" →
        convert_bold (some s) = wrapHtml ⟨nbspSub (brSub (linkAux (boldAux s.toList)))⟩) ∧
    markupSubs "**Hi** [Go](https://go.dev)" =
      "<b>Hi</b> <a href=\"https://go.dev\" style=\"color:#1a73e8; text-decoration:underline;\" target=\"_blank\">Go</a>" ∧
    markupSubs "[x](ftp://y)" = "[x](ftp://y)" ∧
    ∀ (mode : Mode) (labelId : Option String) (subjT bodyT : String) (o : StepOracle)
      (row : Row) (addr : String), toAddrOf row = some addr →
      (processRow mode labelId subjT bodyT o row).submitted =
        some ⟨addr, safe_format_template subjT row,
          convert_bold (some (safe_format_template bodyT row))⟩ := by
  refine ⟨?_, by decide, by decide, ?_⟩
  · intro s hs
    simp [convert_bold, hs, markupSubs]
  · intro mode labelId subjT bodyT o row addr ha
    rw [processRow_submitted mode labelId subjT bodyT o row addr ha]
    rfl

theorem markup_pipeline_witness :
    convert_bold (some "**Hi**") =
      wrapHtml ⟨nbspSub (brSub (linkAux (boldAux "**Hi**".toList)))⟩ ∧
    (processRow .saveDraft none "S {Name}" "B" okOracle
        [("Email", "a@b.cc"), ("Name", "Zoe")]).submitted =
      some ⟨"a@b.cc", safe_format_template "S {Name}" [("Email", "a@b.cc"), ("Name", "Zoe")],
        convert_bold (some (safe_format_template "B" [("Email", "a@b.cc"), ("Name", "Zoe")]))⟩ :=
  ⟨markup_pipeline.1 "**Hi**" (by decide),
   markup_pipeline.2.2.2 .saveDraft none "S {Name}" "B" okOracle
     [("Email", "a@b.cc"), ("Name", "Zoe")] "a@b.cc" (by decide)⟩

theorem specRender_eq_renderTotal (row : Row) :
    ∀ cs, specRender row cs = renderTotal (rowGet row) cs := by
  intro cs
  induction cs with
  | nil => rfl
  | cons c rest ih =>
    rcases c with c | nm <;> simp [specRender, renderTotal, ih]

theorem foldl_fmtStep_name :
    ∀ (nm : List Char) (ch : List FmtChunk) (acc : List Char),
      (∀ c ∈ nm, plainNameChar c = true) →
      nm.foldl fmtStep (some (ch, .inField acc)) = some (ch, .inField (nm.reverse ++ acc)) := by
  intro nm
  induction nm with
  | nil => intro ch acc h; rfl
  | cons c rest ih =>
    intro ch acc h
    have hc := h c (List.mem_cons_self c rest)
    have hc1 : ¬c = '}' := by
      intro he; subst he; simp [plainNameChar] at hc
    have hc2 : ¬c = '{' := by
      intro he; subst he; simp [plainNameChar] at hc
    rw [List.foldl_cons]
    rw [show fmtStep (some (ch, .inField acc)) c = some (ch, .inField (c :: acc)) by
      simp [fmtStep, hc1, hc2]]
    rw [ih ch (c :: acc) (fun x hx => h x (List.mem_cons_of_mem c hx))]
    simp

theorem foldl_fmtStep_chunks :
    ∀ (cs : List FmtChunk) (ch : List FmtChunk), chunksWF cs = true →
      (printChunks cs).foldl fmtStep (some (ch, .norm)) = some (ch ++ cs, .norm) := by
  intro cs
  induction cs with
  | nil => intro ch h; simp [printChunks]
  | cons c rest ih =>
    intro ch h
    rw [chunksWF, List.all_cons, Bool.and_eq_true] at h
    obtain ⟨hc, hrest⟩ := h
    rcases c with c | nm
    · have hc1 : ¬c = '{' := by
        intro he; subst he; simp [chunkOkay] at hc
      have hc2 : ¬c = '}' := by
        intro he; subst he; simp [chunkOkay] at hc
      rw [printChunks, printChunk, List.singleton_append, List.foldl_cons]
      rw [show fmtStep (some (ch, .norm)) c = some (ch ++ [FmtChunk.lit c], .norm) by
        simp [fmtStep, hc1, hc2]]
      rw [ih (ch ++ [FmtChunk.lit c]) hrest]
      simp
    · rw [chunkOkay, plainName] at hc
      simp only [Bool.and_eq_true, Bool.not_eq_true'] at hc
      obtain ⟨⟨hne, hpl⟩, hdig⟩ := hc
      have hnm : nm.toList ≠ [] := by
        intro he
        apply absurd hne
        simp only [decide_eq_false_iff_not, Decidable.not_not]
        cases nm
        simp_all [String.toList]
      obtain ⟨c1, nmrest, hsplit⟩ := List.exists_cons_of_ne_nil hnm
      have hplc : ∀ x ∈ nm.toList, plainNameChar x = true := by
        intro x hx
        exact List.all_eq_true.mp hpl x hx
      have hc11 : plainNameChar c1 = true := hplc c1 (by rw [hsplit]; exact List.mem_cons_self _ _)
      have hc1a : ¬c1 = '{' := by
        intro he; subst he; simp [plainNameChar] at hc11
      have hc1b : ¬c1 = '}' := by
        intro he; subst he; simp [plainNameChar] at hc11
      rw [printChunks, printChunk]
      rw [hsplit]
      simp only [List.cons_append, List.append_assoc, List.foldl_cons]
      rw [show fmtStep (some (ch, FmtMode.norm)) '{' = some (ch, FmtMode.afterOpen) by
        simp [fmtStep]]
      rw [show fmtStep (some (ch, FmtMode.afterOpen)) c1 = some (ch, FmtMode.inField [c1]) by
        simp [fmtStep, hc1a, hc1b]]
      rw [List.foldl_append]
      rw [foldl_fmtStep_name nmrest ch [c1]
        (fun x hx => hplc x (by rw [hsplit]; exact List.mem_cons_of_mem c1 hx))]
      rw [List.foldl_cons]
      rw [show fmtStep (some (ch, FmtMode.inField (nmrest.reverse ++ [c1]))) '}' =
          some (ch ++ [FmtChunk.field ⟨(nmrest.reverse ++ [c1]).reverse⟩], FmtMode.norm) by
        simp [fmtStep]]
      have hrev : ((nmrest.reverse ++ [c1]).reverse : List Char) = c1 :: nmrest := by
        simp
      rw [hrev]
      have hstr : (⟨c1 :: nmrest⟩ : String) = nm := by
        rw [← hsplit]
        rfl
      rw [hstr]
      simp only [List.nil_append]
      rw [ih (ch ++ [FmtChunk.field nm]) hrest]
      simp

theorem parseFmt_printChunks (cs : List FmtChunk) (h : chunksWF cs = true) :
    parseFmt (printChunks cs) = .ok cs := by
  rw [parseFmt, foldl_fmtStep_chunks cs [] h]
  rfl

theorem foldl_findallStep_name :
    ∀ (nm : List Char) (acc : List String) (cap : List Char),
      (∀ c ∈ nm, plainNameChar c = true) →
      nm.foldl findallStep (acc, some cap) = (acc, some (nm.reverse ++ cap)) := by
  intro nm
  induction nm with
  | nil => intro acc cap h; rfl
  | cons c rest ih =>
    intro acc cap h
    have hc := h c (List.mem_cons_self c rest)
    have hc1 : ¬c = '}' := by
      intro he; subst he; simp [plainNameChar] at hc
    have hc2 : ¬c = '\n' := by
      intro he; subst he; simp [plainNameChar] at hc
    rw [List.foldl_cons]
    rw [show findallStep (acc, some cap) c = (acc, some (c :: cap)) by
      simp [findallStep, hc1, hc2]]
    rw [ih acc (c :: cap) (fun x hx => h x (List.mem_cons_of_mem c hx))]
    simp

theorem foldl_findallStep_chunks :
    ∀ (cs : List FmtChunk) (acc : List String), chunksWF cs = true →
      (printChunks cs).foldl findallStep (acc, none) = (acc ++ fieldNames cs, none) := by
  intro cs
  induction cs with
  | nil => intro acc h; simp [printChunks, fieldNames]
  | cons c rest ih =>
    intro acc h
    rw [chunksWF, List.all_cons, Bool.and_eq_true] at h
    obtain ⟨hc, hrest⟩ := h
    rcases c with c | nm
    · have hc1 : ¬c = '{' := by
        intro he; subst he; simp [chunkOkay] at hc
      rw [printChunks, printChunk, List.singleton_append, List.foldl_cons]
      rw [show findallStep (acc, none) c = (acc, none) by simp [findallStep, hc1]]
      rw [ih acc hrest]
      simp [fieldNames]
    · rw [chunkOkay, plainName] at hc
      simp only [Bool.and_eq_true, Bool.not_eq_true'] at hc
      obtain ⟨⟨hne, hpl⟩, hdig⟩ := hc
      have hplc : ∀ x ∈ nm.toList, plainNameChar x = true := by
        intro x hx
        exact List.all_eq_true.mp hpl x hx
      rw [printChunks, printChunk]
      simp only [List.cons_append, List.append_assoc, List.foldl_cons]
      rw [show findallStep (acc, none) '{' = (acc, some []) by simp [findallStep]]
      rw [List.foldl_append]
      rw [foldl_findallStep_name nm.toList acc [] hplc]
      rw [List.foldl_cons]
      rw [show findallStep (acc, some (nm.toList.reverse ++ [])) '}' =
          (acc ++ [(⟨(nm.toList.reverse ++ []).reverse⟩ : String)], none) by
        simp [findallStep]]
      have hrev : (⟨(nm.toList.reverse ++ []).reverse⟩ : String) = nm := by
        simp only [List.append_nil, List.reverse_reverse]
        rfl
      rw [hrev]
      simp only [List.nil_append]
      rw [ih (acc ++ [nm]) hrest]
      simp [fieldNames]

theorem pyFindall_printChunks (cs : List FmtChunk) (h : chunksWF cs = true) :
    pyFindall ⟨printChunks cs⟩ = fieldNames cs := by
  rw [pyFindall]
  rw [show (String.toList ⟨printChunks cs⟩) = printChunks cs from rfl]
  rw [foldl_findallStep_chunks cs [] h]
  simp

theorem renderChunks_ok_of_all (look : String → Option String) :
    ∀ cs : List FmtChunk, (∀ nm ∈ fieldNames cs, (look nm).isSome) →
      renderChunks look cs = .ok (renderTotal look cs) := by
  intro cs
  induction cs with
  | nil => intro h; rfl
  | cons c rest ih =>
    intro h
    rcases c with c | nm
    · rw [renderChunks, ih (fun nm hm => h nm hm), renderTotal]
      rfl
    · have hs := h nm (List.mem_cons_self _ _)
      rcases hl : look nm with _ | v
      · rw [hl] at hs; simp at hs
      · rw [renderChunks, hl, ih (fun nm2 hm => h nm2 (List.mem_cons_of_mem _ hm)),
          renderTotal, hl]
        rfl

theorem renderChunks_err_of_missing (look : String → Option String) :
    ∀ cs : List FmtChunk, (∃ nm ∈ fieldNames cs, look nm = none) →
      renderChunks look cs = .error () := by
  intro cs
  induction cs with
  | nil => intro h; simp [fieldNames] at h
  | cons c rest ih =>
    intro h
    rcases c with c | nm
    · rw [renderChunks, ih (by simpa [fieldNames] using h)]
      rfl
    · rcases hl : look nm with _ | v
      · rw [renderChunks, hl]
      · rw [renderChunks, hl]
        obtain ⟨nm0, hmem, hnone⟩ := h
        rw [fieldNames] at hmem
        rcases List.mem_cons.mp hmem with rfl | hmem0
        · rw [hl] at hnone; cases hnone
        · rw [ih ⟨nm0, hmem0, hnone⟩]
          rfl

theorem renderTotal_congr (look1 look2 : String → Option String) :
    ∀ cs : List FmtChunk,
      (∀ nm ∈ fieldNames cs, (look1 nm).getD "" = (look2 nm).getD "") →
      renderTotal look1 cs = renderTotal look2 cs := by
  intro cs
  induction cs with
  | nil => intro h; rfl
  | cons c rest ih =>
    intro h
    rcases c with c | nm
    · rw [renderTotal, renderTotal, ih (fun nm hm => h nm hm)]
    · rw [renderTotal, renderTotal, h nm (List.mem_cons_self _ _),
        ih (fun nm2 hm => h nm2 (List.mem_cons_of_mem _ hm))]

theorem rowGet_map_keys (f : String → String) :
    ∀ (keys : List String) (nm : String),
      rowGet (keys.map (fun k => (k, f k))) nm =
        if nm ∈ keys then some (f nm) else none := by
  intro keys
  induction keys with
  | nil => intro nm; simp [rowGet]
  | cons k ks ih =>
    intro nm
    rw [List.map_cons]
    simp only [rowGet]
    by_cases hk : k = nm
    · subst hk
      simp [ih]
    · rw [if_neg hk, ih]
      have hnk : ¬nm = k := fun he => hk he.symm
      simp [List.mem_cons, hnk]

/-! ### Claim C6 -/
/-- C6: `safe_format_template` never raises (it is a total function of the
model): on every template made of plain `{field}` placeholders —
quantified through its chunk list, printed back to the template string —
it replaces each placeholder whose field is present with the stringified
row value and substitutes the empty string for absent fields (the first
`format` pass covers the all-present case, the `findall` fallback the
rest); and on a template whose braces do not parse, for which `str.format`
raises regardless of the mapping, it returns the template unchanged. -/
theorem safe_format_spec :
    (∀ (cs : List FmtChunk) (row : Row), chunksWF cs = true →
        safe_format_template ⟨printChunks cs⟩ row = ⟨specRender row cs⟩) ∧
    (∀ (tpl : String) (row : Row), parseFmt tpl.toList = .error () →
        safe_format_template tpl row = tpl) := by
  constructor
  · intro cs row hwf
    have hparse : parseFmt (String.toList ⟨printChunks cs⟩) = .ok cs :=
      parseFmt_printChunks cs hwf
    rw [specRender_eq_renderTotal]
    by_cases hall : ∀ nm ∈ fieldNames cs, (rowGet row nm).isSome = true
    · have hrender := renderChunks_ok_of_all (rowGet row) cs hall
      rw [safe_format_template]
      rw [show pyFormat ⟨printChunks cs⟩ (rowGet row) =
          .ok ⟨renderTotal (rowGet row) cs⟩ by
        rw [pyFormat, hparse]
        simp only [Except.bind]
        rw [hrender]
        rfl]
    · push_neg at hall
      obtain ⟨nm0, hmem, hnone⟩ := hall
      have hnone' : rowGet row nm0 = none := by
        rcases h : rowGet row nm0 with _ | v
        · rfl
        · rw [h] at hnone; simp at hnone
      have herr := renderChunks_err_of_missing (rowGet row) cs ⟨nm0, hmem, hnone'⟩
      have hkeys : pyFindall ⟨printChunks cs⟩ = fieldNames cs := pyFindall_printChunks cs hwf
      have hctx : ∀ nm ∈ fieldNames cs,
          rowGet ((fieldNames cs).map (fun k => (k, (rowGet row k).getD ""))) nm =
            some ((rowGet row nm).getD "") := by
        intro nm hm
        rw [rowGet_map_keys (fun k => (rowGet row k).getD "") (fieldNames cs) nm, if_pos hm]
      have hall2 : ∀ nm ∈ fieldNames cs,
          (rowGet ((fieldNames cs).map (fun k => (k, (rowGet row k).getD ""))) nm).isSome = true := by
        intro nm hm
        rw [hctx nm hm]
        rfl
      have hrender2 := renderChunks_ok_of_all
        (rowGet ((fieldNames cs).map (fun k => (k, (rowGet row k).getD "")))) cs hall2
      have hcongr : renderTotal
          (rowGet ((fieldNames cs).map (fun k => (k, (rowGet row k).getD "")))) cs =
          renderTotal (rowGet row) cs := by
        apply renderTotal_congr
        intro nm hm
        rw [hctx nm hm]
        rfl
      rw [safe_format_template]
      rw [show pyFormat ⟨printChunks cs⟩ (rowGet row) = .error () by
        rw [pyFormat, hparse]
        simp only [Except.bind]
        rw [herr]
        rfl]
      simp only [hkeys]
      rw [show pyFormat ⟨printChunks cs⟩
          (rowGet ((fieldNames cs).map (fun k => (k, (rowGet row k).getD "")))) =
          .ok ⟨renderTotal (rowGet row) cs⟩ by
        rw [pyFormat, hparse]
        simp only [Except.bind]
        rw [hrender2, hcongr]
        rfl]
  · intro tpl row hp
    rw [safe_format_template]
    rw [show pyFormat tpl (rowGet row) = .error () by rw [pyFormat, hp]; rfl]
    simp only []
    rw [show pyFormat tpl
        (rowGet ((pyFindall tpl).map (fun k => (k, (rowGet row k).getD "")))) = .error () by
      rw [pyFormat, hp]; rfl]

theorem safe_format_spec_witness :
    safe_format_template "Hello {Missing}" [] = "Hello " ∧
    safe_format_template "Hello \x7b" [] = "Hello \x7b" :=
  ⟨safe_format_spec.1 [.lit 'H', .lit 'e', .lit 'l', .lit 'l', .lit 'o', .lit ' ',
      .field "Missing"] [] (by decide),
   safe_format_spec.2 "Hello \x7b" [] rfl⟩

end MailMerge

